import Mathlib

/-!
Verification of the hibp-json repository: a shallow embedding of the
server crate (`crates/server/src/lib.rs`) and of the CLI build pipeline
(`crates/cli/src/lib.rs`), together with theorems settling the stated
properties of the specification.

Modelling conventions:
* Rust byte values (`u8`) are `Nat`.
* Rust `&str` / `String` values are Lean `String` (or `List Char` where
  character-level reasoning is needed, e.g. header parsing).
* Filesystem paths are lists of components (`List String`).
* External compression libraries (flate2, brotli) are abstract functions
  passed as parameters; their round-trip behaviour is a hypothesis.
* Panics (`unwrap`, `assert!`, `unreachable!`) are modelled with `Option`
  or explicit outcome constructors.
-/

namespace HibpJson

/-! ## Server: `crates/server/src/lib.rs` -/

/-- The byte-level validity test from `Hash5::deserialize`:
`matches!(byte, 48..=57 | 65..=70 | 97..=102)`. -/
def isHexByte (b : Nat) : Bool :=
  (48 ≤ b && b ≤ 57) || (65 ≤ b && b ≤ 70) || (97 ≤ b && b ≤ 102)

/-- `hex` from the server crate: maps an ASCII hex digit byte to its
single-character directory/file name, folding lower case onto upper case.
The `unreachable!()` arm (only hittable on bytes that validation has
already rejected) is modelled as `""`. -/
def hex (byte : Nat) : String :=
  match byte with
  | 48 => "0"
  | 49 => "1"
  | 50 => "2"
  | 51 => "3"
  | 52 => "4"
  | 53 => "5"
  | 54 => "6"
  | 55 => "7"
  | 56 => "8"
  | 57 => "9"
  | 65 | 97 => "A"
  | 66 | 98 => "B"
  | 67 | 99 => "C"
  | 68 | 100 => "D"
  | 69 | 101 => "E"
  | 70 | 102 => "F"
  | _ => ""

/-- The two serde error shapes produced by `Hash5::deserialize`. -/
inductive DeserializeError
  | invalidLength (len : Nat)
  | invalidValue (byte : Nat)
deriving DecidableEq, Repr

namespace Hash5

/-- `Hash5::deserialize`: the input is the raw path segment as bytes
(`raw.as_bytes()`).  Length must be 5, every byte must be an ASCII hex
digit, and the resulting inner path is the five one-character names
joined (modelled as the list of components). -/
def deserialize (raw : List Nat) : Except DeserializeError (List String) :=
  if raw.length ≠ 5 then
    .error (.invalidLength raw.length)
  else
    match raw.find? (fun b => !isHexByte b) with
    | some b => .error (.invalidValue b)
    | none =>
        .ok [hex (raw.getD 0 0), hex (raw.getD 1 0), hex (raw.getD 2 0),
             hex (raw.getD 3 0), hex (raw.getD 4 0)]

end Hash5

/-- Worker for `splitOnSub`, structurally recursive on a fuel argument so
that it evaluates by `rfl`/`decide`.  With `fuel ≥ s.length` (as
`splitOnSub` always supplies) the fuel-exhausted arm is unreachable,
since each recursive call shortens the input by at least one character. -/
def splitOnSubFuel (sep : List Char) : Nat → List Char → List (List Char)
  | _, [] => [[]]
  | 0, s => [s]
  | fuel + 1, c :: rest =>
    if sep ≠ [] && sep.isPrefixOf (c :: rest) then
      [] :: splitOnSubFuel sep fuel ((c :: rest).drop sep.length)
    else
      match splitOnSubFuel sep fuel rest with
      | [] => [[c]]
      | g :: gs => (c :: g) :: gs

/-- Rust `str::split` with a nonempty literal pattern, modelled on
character lists: splits at each non-overlapping occurrence of `sep`,
left to right.  (The server only uses it with `','` and `";q="`.) -/
def splitOnSub (sep s : List Char) : List (List Char) :=
  splitOnSubFuel sep s.length s

/-- Rust `str::trim` on character lists (Rust trims Unicode
`White_Space`, which agrees with `Char.isWhitespace` on ASCII input). -/
def trimList (s : List Char) : List Char :=
  ((s.dropWhile Char.isWhitespace).reverse.dropWhile Char.isWhitespace).reverse

/-- `AcceptedEncodings` from the server crate (`#[derive(Default)]`: both
flags start out `false`). -/
structure AcceptedEncodings where
  brotli : Bool := false
  gzip : Bool := false
deriving DecidableEq, Repr

/-- The server `Error` enum: a header value that is not valid visible
text (`ToStrError`), or `InvalidFormat`. -/
inductive HeaderError
  | toStrError
  | invalidFormat
deriving DecidableEq, Repr

/-- The closure of the `try_fold` in `get_accepted_encodings`: take the
piece of the item before the first `";q="` (`split(";q=").next()`, with
`InvalidFormat` for a missing first piece) and set the flag matching the
literal `"br"` or `"gzip"`, ignoring anything else. -/
def accept_step (acc : AcceptedEncodings) (item : List Char) :
    Except HeaderError AcceptedEncodings :=
  match (splitOnSub ";q=".data item).head? with
  | none => .error HeaderError.invalidFormat
  | some tok =>
      .ok (if tok = "br".data then { acc with brotli := true }
           else if tok = "gzip".data then { acc with gzip := true }
           else acc)

/-- `get_accepted_encodings`: every `Accept-Encoding` value is converted
to text (`none` models a value failing `to_str`; all conversions are
collected before any parsing), each text is split on commas with items
trimmed, and each item feeds `accept_step`. -/
def get_accepted_encodings (values : List (Option (List Char))) :
    Except HeaderError AcceptedEncodings :=
  match values.mapM id with
  | none => .error .toStrError
  | some texts =>
      (texts.flatMap (fun s => (splitOnSub [','] s).map trimList)).foldlM
        accept_step {}

/-- `AppState` without the `root` path: the filesystem model used below
is already rooted at it. -/
structure AppState where
  json : Bool
  brotli : Bool
  gzip : Bool
deriving DecidableEq, Repr

/-- `PathBuf::set_extension`, restricted to how the handler uses it: the
final path component is a bare hex character (no dot), so setting the
extension appends `"." ++ ext` to it. -/
def set_extension : List String → String → List String
  | [], _ => []
  | [base], ext => [base ++ "." ++ ext]
  | c :: rest, ext => c :: set_extension rest ext

/-- The observable outcome of the `hash5` handler. -/
inductive LookupResponse
  | badRequest
  | notFound
  | ok (contentEncoding : Option String) (body : String)
deriving DecidableEq, Repr

/-- The open-and-stream step of the handler: one filesystem access at
`path`; absence yields not-found, presence streams the body with the
chosen `Content-Encoding` header.  The second component records the
filesystem accesses performed. -/
def lookupAt (fs : List String → Option String) (path : List String)
    (enc : Option String) : LookupResponse × List (List String) :=
  match fs path with
  | none => (.notFound, [path])
  | some body => (.ok enc body, [path])

/-- The `/:hash5` route: axum deserializes the path segment (a failure is
rejected with a client error before the handler body runs and before any
filesystem access), the handler parses `Accept-Encoding`, picks the
representation through the brotli / gzip / json if-chain, and opens
exactly one file. -/
def hash5_handler (st : AppState) (fs : List String → Option String)
    (rawSeg : List Nat) (headerValues : List (Option (List Char))) :
    LookupResponse × List (List String) :=
  match Hash5.deserialize rawSeg with
  | .error _ => (.badRequest, [])
  | .ok inner =>
      match get_accepted_encodings headerValues with
      | .error _ => (.badRequest, [])
      | .ok accepted =>
          if st.brotli && accepted.brotli then
            lookupAt fs (set_extension inner "json.br") (some "br")
          else if st.gzip && accepted.gzip then
            lookupAt fs (set_extension inner "json.gz") (some "gzip")
          else if st.json then
            lookupAt fs (set_extension inner "json") none
          else
            lookupAt fs inner none

/-! ## CLI: `crates/cli/src/lib.rs` -/

/-- Rust `str::split_once(':')` on character lists: the pieces before and
after the first occurrence of the separator, or `none` when absent. -/
def split_once (sep : Char) : List Char → Option (List Char × List Char)
  | [] => none
  | c :: rest =>
    if c = sep then some ([], rest)
    else (split_once sep rest).map (fun pr => (c :: pr.1, pr.2))

/-- Rust `usize::from_str` (the `c.parse()` of the build loop): an
optional leading `+`, then one or more ASCII digits.  Arbitrary-precision
`Nat` stands in for `usize`, so overflow is not modelled. -/
def parseUsize (s : List Char) : Option Nat :=
  let t := if s.head? = some '+' then s.tail else s
  if t.isEmpty then none
  else if t.all Char.isDigit then
    some (t.foldl (fun n c => 10 * n + (c.toNat - 48)) 0)
  else none

/-- One record of the output JSON: `Password { hash, count }`. -/
structure Password where
  hash : String
  count : Nat
deriving DecidableEq, Repr

/-- The per-line body of the build worker: split at the first `:`, parse
the count, and prepend the shard's filename stem to the suffix.  `none`
models the `unwrap` panics on a malformed line. -/
def parseLine (stem : String) (line : String) : Option Password :=
  match split_once ':' line.data with
  | none => none
  | some pr =>
      match parseUsize pr.2 with
      | none => none
      | some c => some { hash := stem ++ String.mk pr.1, count := c }

/-- The line loop of the build worker over one shard file's lines. -/
def parseShardLines (stem : String) (lines : List String) :
    Option (List Password) :=
  lines.mapM (parseLine stem)

/-- serde_json string escaping for one character: quote and backslash are
escaped, control characters use their short or `\u00xx` forms, everything
else is emitted verbatim (external serde_json collaborator, fixed here as
the boundary of the embedding). -/
def escapeJsonChar (c : Char) : List Char :=
  if c = '"' then ['\\', '"']
  else if c = '\\' then ['\\', '\\']
  else if c = Char.ofNat 8 then ['\\', 'b']
  else if c = Char.ofNat 12 then ['\\', 'f']
  else if c = '\n' then ['\\', 'n']
  else if c = '\r' then ['\\', 'r']
  else if c = '\t' then ['\\', 't']
  else if c.toNat < 32 then
    ['\\', 'u', '0', '0',
     (if c.toNat / 16 < 10 then Char.ofNat (48 + c.toNat / 16)
      else Char.ofNat (87 + c.toNat / 16)),
     (if c.toNat % 16 < 10 then Char.ofNat (48 + c.toNat % 16)
      else Char.ofNat (87 + c.toNat % 16))]
  else [c]

/-- serde_json serialization of one `Password`:
`\x7b"hash":"…","count":N\x7d` with no whitespace. -/
def serializePassword (p : Password) : String :=
  "\x7b\"hash\":\"" ++ String.mk (p.hash.data.flatMap escapeJsonChar) ++
    "\",\"count\":" ++ toString p.count ++ "\x7d"

/-- serde_json serialization of the password vector
(`serde_json::to_vec(&passwords)`): a JSON array in input order. -/
def serializeShard (ps : List Password) : String :=
  "[" ++ String.intercalate "," (ps.map serializePassword) ++ "]"

/-- `format_prefix_to_dirs`: interleave `/` between the characters of the
stem (`char_indices().fold`, a separator before every character except
the first; in that fold the byte index is positive exactly on the
non-first characters). -/
def format_prefix_to_dirs (stem : String) : String :=
  String.mk
    (stem.data.enum.foldl
      (fun acc ic => (if 0 < ic.1 then acc ++ ['/'] else acc) ++ [ic.2]) [])

/-- The sixteen directory names of `generate_out_structure`. -/
def hexTable : List String :=
  ["0", "1", "2", "3", "4", "5", "6", "7",
   "8", "9", "A", "B", "C", "D", "E", "F"]

/-- One build-time filesystem effect. -/
inductive BuildEffect
  | mkdir (path : List String)
  | writeFile (path : String) (content : String)
deriving DecidableEq, Repr

/-- `generate_out_structure`: the `create_dir_all` calls of the four
nested loops over `hexTable`, in program order. -/
def generate_out_structure : List BuildEffect :=
  hexTable.flatMap (fun c1 =>
    hexTable.flatMap (fun c2 =>
      hexTable.flatMap (fun c3 =>
        hexTable.map (fun c4 => .mkdir [c1, c2, c3, c4]))))

/-- The per-shard closure of `run`'s parallel loop: parse every line of
the file (whose filename stem is used verbatim as the key), serialize
once, then write the artifacts enabled by the flags, each derived from
that single serialized sequence (`gzipC`/`brC` are the external
flate2/brotli encoders).  `none` models the `unwrap` panics on a
malformed line. -/
def buildShard (json gzip brotli : Bool) (gzipC brC : String → String)
    (stem : String) (lines : List String) : Option (List BuildEffect) :=
  match parseShardLines stem lines with
  | none => none
  | some passwords =>
      let serialized := serializeShard passwords
      let dirs := format_prefix_to_dirs stem
      some
        ((if json then [.writeFile (dirs ++ ".json") serialized] else []) ++
         (if gzip then [.writeFile (dirs ++ ".json.gz") (gzipC serialized)] else []) ++
         (if brotli then [.writeFile (dirs ++ ".json.br") (brC serialized)] else []))

/-- How a build run ends: normally, by the failed
`assert!(count == 16^5)` of strict mode, or by a worker panic (malformed
line) that kills the whole batch. -/
inductive BuildOutcome
  | completed
  | abortedStrict
  | abortedWorker
deriving DecidableEq, Repr

/-- `run` (CLI): ensure the 65,536-directory skeleton, discover the input
files, enforce strict completeness, then process every shard.  Input
files are `(stem, lines)` pairs.  The result pairs the filesystem effects
with the outcome; on a worker panic, writes already issued by other
concurrently running workers are scheduler-dependent and not modelled. -/
def runBuild (strict json gzip brotli : Bool) (gzipC brC : String → String)
    (files : List (String × List String)) : List BuildEffect × BuildOutcome :=
  let dirEffects := generate_out_structure
  if strict && files.length != 16 ^ 5 then
    (dirEffects, .abortedStrict)
  else
    match files.mapM (fun f => buildShard json gzip brotli gzipC brC f.1 f.2) with
    | none => (dirEffects, .abortedWorker)
    | some writes => (dirEffects ++ writes.flatMap id, .completed)

/-! ## Canonicalisation helpers (the spec's one-case form of a key) -/

/-- Canonicalisation of a hex digit byte to upper case: the one-case form
the specification speaks about. -/
def toUpperHex (b : Nat) : Nat :=
  if 97 ≤ b && b ≤ 102 then b - 32 else b

/-- A canonical (one-case) hex digit byte: `0`–`9` or upper-case `A`–`F`. -/
def isCanonHexByte (b : Nat) : Bool :=
  (48 ≤ b && b ≤ 57) || (65 ≤ b && b ≤ 70)

/-- The inverse of `hex` on the sixteen canonical directory names. -/
def unhex (s : String) : Nat :=
  match s with
  | "0" => 48
  | "1" => 49
  | "2" => 50
  | "3" => 51
  | "4" => 52
  | "5" => 53
  | "6" => 54
  | "7" => 55
  | "8" => 56
  | "9" => 57
  | "A" => 65
  | "B" => 66
  | "C" => 67
  | "D" => 68
  | "E" => 69
  | "F" => 70
  | _ => 0


/-- The canonical keyspace: five bytes, each a canonical hex digit. -/
def CanonKey : Type :=
  { l : List Nat // l.length = 5 ∧ ∀ b ∈ l, isCanonHexByte b = true }

/-- Five-level paths built from canonical directory names. -/
def HexPath : Type :=
  { p : List String // p.length = 5 ∧ ∀ s ∈ p, s ∈ hexTable }

/-- The key-to-path mapping realised by `Hash5.deserialize` on canonical
keys: each byte becomes its one-character directory name. -/
def keyToPath (k : CanonKey) : HexPath :=
  ⟨k.val.map hex, by
    obtain ⟨l, hl, hc⟩ := k
    refine ⟨by simp [hl], ?_⟩
    intro s hs
    simp only [List.mem_map] at hs
    obtain ⟨b, hb, rfl⟩ := hs
    have h1 : isCanonHexByte b = true := hc b hb
    have hblt : b < 71 := by
      simp only [isCanonHexByte, Bool.or_eq_true, Bool.and_eq_true,
        decide_eq_true_eq] at h1
      omega
    have hfin : ∀ x : Fin 71, isCanonHexByte x.val = true →
        hex x.val ∈ hexTable := by decide
    exact hfin ⟨b, hblt⟩ h1⟩

/-- The claim-side token pipeline of the negotiation parser: split every
header value on commas, trim each piece, and strip the trailing quality
annotation (the part from the first `";q="` on). -/
def claimTokens (texts : List (List Char)) : List (List Char) :=
  (texts.flatMap (fun s => (splitOnSub [','] s).map trimList)).map
    (fun item => (splitOnSub ";q=".data item).headD [])

/-! ## Sanity checks -/

example : Hash5.deserialize [97, 66, 99, 68, 101] = .ok ["A", "B", "C", "D", "E"] := by
  rfl

example : Hash5.deserialize [65, 66, 67, 68] = .error (.invalidLength 4) := by
  rfl

example : Hash5.deserialize [65, 66, 67, 68, 71] = .error (.invalidValue 71) := by
  rfl

example : splitOnSub [','] "a, b ,c".data = ["a".data, " b ".data, "c".data] := by rfl

example : splitOnSub ";q=".data "br;q=0.8".data = ["br".data, "0.8".data] := by rfl

example : splitOnSub ";q=".data "".data = ["".data] := by rfl

example : trimList "  br ".data = "br".data := by rfl

example :
    get_accepted_encodings [some "gzip;q=1.0, identity".data, some "br".data] =
      .ok { brotli := true, gzip := true } := by rfl

example :
    get_accepted_encodings [some "deflate".data, none] = .error .toStrError := by rfl

example : set_extension ["A", "B", "C", "D", "E"] "json.br" =
    ["A", "B", "C", "D", "E.json.br"] := by rfl

example : split_once ':' "abc:3:x".data = some ("abc".data, "3:x".data) := by rfl

example : split_once ':' "abc".data = none := by rfl

example : parseUsize "042".data = some 42 := by rfl

example : parseUsize "+7".data = some 7 := by rfl

example : parseUsize "".data = none := by rfl

example : parseUsize "3x".data = none := by rfl

example : serializeShard [] = "[]" := by rfl

example :
    serializeShard [{ hash := "ABCDEF", count := 3 }] =
      "[\x7b\"hash\":\"ABCDEF\",\"count\":3\x7d]" := by rfl

example : format_prefix_to_dirs "ABCDE" = "A/B/C/D/E" := by rfl

example : format_prefix_to_dirs "abcde" = "a/b/c/d/e" := by rfl

theorem isHexByte_lt (b : Nat) (h : isHexByte b = true) : b < 103 := by
  simp only [isHexByte, Bool.or_eq_true, Bool.and_eq_true, decide_eq_true_eq] at h
  omega

theorem isCanonHexByte_lt (b : Nat) (h : isCanonHexByte b = true) : b < 71 := by
  simp only [isCanonHexByte, Bool.or_eq_true, Bool.and_eq_true, decide_eq_true_eq] at h
  omega

theorem canon_isHexByte (b : Nat) (h : isCanonHexByte b = true) :
    isHexByte b = true := by
  simp only [isCanonHexByte, Bool.or_eq_true, Bool.and_eq_true, decide_eq_true_eq] at h
  simp only [isHexByte, Bool.or_eq_true, Bool.and_eq_true, decide_eq_true_eq]
  omega

theorem hex_toUpperHex (b : Nat) (h : isHexByte b = true) :
    hex (toUpperHex b) = hex b := by
  have hb : b < 103 := isHexByte_lt b h
  have hfin : ∀ x : Fin 103, isHexByte x.val = true →
      hex (toUpperHex x.val) = hex x.val := by decide
  exact hfin ⟨b, hb⟩ h

theorem isHexByte_toUpperHex (b : Nat) (h : isHexByte b = true) :
    isHexByte (toUpperHex b) = true := by
  have hb : b < 103 := isHexByte_lt b h
  have hfin : ∀ x : Fin 103, isHexByte x.val = true →
      isHexByte (toUpperHex x.val) = true := by decide
  exact hfin ⟨b, hb⟩ h

theorem unhex_hex (b : Nat) (h : isCanonHexByte b = true) : unhex (hex b) = b := by
  have hb : b < 71 := isCanonHexByte_lt b h
  have hfin : ∀ x : Fin 71, isCanonHexByte x.val = true →
      unhex (hex x.val) = x.val := by decide
  exact hfin ⟨b, hb⟩ h

theorem hex_mem_hexTable (b : Nat) (h : isHexByte b = true) : hex b ∈ hexTable := by
  have hb : b < 103 := isHexByte_lt b h
  have hfin : ∀ x : Fin 103, isHexByte x.val = true → hex x.val ∈ hexTable := by decide
  exact hfin ⟨b, hb⟩ h

theorem hexTable_unhex (s : String) (h : s ∈ hexTable) :
    isCanonHexByte (unhex s) = true ∧ hex (unhex s) = s := by
  fin_cases h <;> exact ⟨rfl, rfl⟩

theorem hex_lower (b : Nat) (h1 : 97 ≤ b) (h2 : b ≤ 102) :
    hex b = hex (b - 32) := by
  interval_cases b <;> rfl

/-- `Hash5.deserialize` succeeds on five valid hex digit bytes and maps
them through `hex`. -/
theorem deserialize_eq_ok (a b c d e : Nat)
    (h : ∀ x ∈ [a, b, c, d, e], isHexByte x = true) :
    Hash5.deserialize [a, b, c, d, e] =
      .ok [hex a, hex b, hex c, hex d, hex e] := by
  have ha := h a (by simp)
  have hb := h b (by simp)
  have hc := h c (by simp)
  have hd := h d (by simp)
  have he := h e (by simp)
  simp [Hash5.deserialize, List.find?, ha, hb, hc, hd, he]


theorem keyToPath_val (k : CanonKey) : (keyToPath k).val = k.val.map hex := rfl

theorem keyToPath_injective : Function.Injective keyToPath := by
  intro k1 k2 h
  have hval : k1.val.map hex = k2.val.map hex := congrArg Subtype.val h
  have hback : ∀ k : CanonKey, (k.val.map hex).map unhex = k.val := by
    intro k
    rw [List.map_map]
    conv_rhs => rw [← List.map_id k.val]
    exact List.map_congr_left fun b hb => unhex_hex b (k.prop.2 b hb)
  apply Subtype.ext
  rw [← hback k1, ← hback k2, hval]

theorem keyToPath_surjective : Function.Surjective keyToPath := by
  intro p
  refine ⟨⟨p.val.map unhex, ?_, ?_⟩, ?_⟩
  · simp [p.prop.1]
  · intro b hb
    simp only [List.mem_map] at hb
    obtain ⟨s, hs, rfl⟩ := hb
    exact (hexTable_unhex s (p.prop.2 s hs)).1
  · apply Subtype.ext
    show (p.val.map unhex).map hex = p.val
    rw [List.map_map]
    conv_rhs => rw [← List.map_id p.val]
    exact List.map_congr_left fun s hs => (hexTable_unhex s (p.prop.2 s hs)).2

theorem list_length_five {α : Type} (l : List α) (h : l.length = 5) :
    ∃ a b c d e, l = [a, b, c, d, e] := by
  rcases l with _ | ⟨a, _ | ⟨b, _ | ⟨c, _ | ⟨d, _ | ⟨e, _ | ⟨f, t⟩⟩⟩⟩⟩⟩ <;> simp at h
  exact ⟨a, b, c, d, e, rfl⟩

/-! ## Claim theorems -/

/-- C1: for every 5-byte string of hex digits in any mix of cases,
`Hash5` deserialization succeeds and produces the same 5-level path as
decoding the fully canonicalised (upper-case) form of the key, and on
the canonical keyspace the key-to-path mapping is a bijection. -/
theorem c1_hash5_decode_case_insensitive_bijective
    (raw : List Nat) (h5 : raw.length = 5)
    (hhex : ∀ x ∈ raw, isHexByte x = true) :
    (∃ p, Hash5.deserialize raw = .ok p ∧
        Hash5.deserialize (raw.map toUpperHex) = .ok p) ∧
    Function.Bijective keyToPath := by
  constructor
  · obtain ⟨a, b, c, d, e, rfl⟩ := list_length_five raw h5
    have ha := hhex a (by simp)
    have hb := hhex b (by simp)
    have hc := hhex c (by simp)
    have hd := hhex d (by simp)
    have he := hhex e (by simp)
    have h' : ∀ x ∈ [toUpperHex a, toUpperHex b, toUpperHex c, toUpperHex d,
        toUpperHex e], isHexByte x = true := by
      intro x hx
      simp only [List.mem_cons, List.not_mem_nil, or_false] at hx
      rcases hx with rfl | rfl | rfl | rfl | rfl
      · exact isHexByte_toUpperHex a ha
      · exact isHexByte_toUpperHex b hb
      · exact isHexByte_toUpperHex c hc
      · exact isHexByte_toUpperHex d hd
      · exact isHexByte_toUpperHex e he
    refine ⟨[hex a, hex b, hex c, hex d, hex e],
      deserialize_eq_ok a b c d e hhex, ?_⟩
    rw [show [a, b, c, d, e].map toUpperHex =
        [toUpperHex a, toUpperHex b, toUpperHex c, toUpperHex d, toUpperHex e]
      from rfl]
    rw [deserialize_eq_ok _ _ _ _ _ h']
    rw [hex_toUpperHex a ha, hex_toUpperHex b hb, hex_toUpperHex c hc,
      hex_toUpperHex d hd, hex_toUpperHex e he]
  · exact ⟨keyToPath_injective, keyToPath_surjective⟩

/-- Witness for C1 at the mixed-case key `"aBcDe"`. -/
theorem c1_witness :
    ([97, 66, 99, 68, 101] : List Nat).length = 5 ∧
    (∀ x ∈ ([97, 66, 99, 68, 101] : List Nat), isHexByte x = true) ∧
    ((∃ p, Hash5.deserialize [97, 66, 99, 68, 101] = .ok p ∧
        Hash5.deserialize ([97, 66, 99, 68, 101].map toUpperHex) = .ok p) ∧
      Function.Bijective keyToPath) :=
  ⟨by decide, by decide,
    c1_hash5_decode_case_insensitive_bijective _ (by decide) (by decide)⟩

theorem mkdir_mem_generate_out_structure (s1 s2 s3 s4 : String)
    (h1 : s1 ∈ hexTable) (h2 : s2 ∈ hexTable) (h3 : s3 ∈ hexTable)
    (h4 : s4 ∈ hexTable) :
    BuildEffect.mkdir [s1, s2, s3, s4] ∈ generate_out_structure := by
  simp only [generate_out_structure, List.mem_flatMap, List.mem_map]
  exact ⟨s1, h1, s2, h2, s3, h3, s4, h4, rfl⟩

/-- C9: the builder's skeleton uses the sixteen names `0`–`9`,`A`–`F`,
the server's decode maps every accepted hex byte (lower case included)
to the corresponding upper-case name, and every valid key decodes to a
path whose four directory levels lie inside the pre-created skeleton. -/
theorem c9_builder_server_layout_agree
    (raw : List Nat) (h5 : raw.length = 5)
    (hhex : ∀ x ∈ raw, isHexByte x = true) :
    (∀ b, isHexByte b = true → hex b ∈ hexTable) ∧
    (∀ b, 97 ≤ b → b ≤ 102 → hex b = hex (b - 32)) ∧
    (∃ p, Hash5.deserialize raw = .ok p ∧
        BuildEffect.mkdir (p.take 4) ∈ generate_out_structure ∧
        ∀ s ∈ p, s ∈ hexTable) := by
  refine ⟨hex_mem_hexTable, hex_lower, ?_⟩
  obtain ⟨a, b, c, d, e, rfl⟩ := list_length_five raw h5
  have ha := hhex a (by simp)
  have hb := hhex b (by simp)
  have hc := hhex c (by simp)
  have hd := hhex d (by simp)
  have he := hhex e (by simp)
  refine ⟨[hex a, hex b, hex c, hex d, hex e],
    deserialize_eq_ok a b c d e hhex, ?_, ?_⟩
  · exact mkdir_mem_generate_out_structure _ _ _ _ (hex_mem_hexTable a ha)
      (hex_mem_hexTable b hb) (hex_mem_hexTable c hc) (hex_mem_hexTable d hd)
  · intro s hs
    simp only [List.mem_cons, List.not_mem_nil, or_false] at hs
    rcases hs with rfl | rfl | rfl | rfl | rfl
    · exact hex_mem_hexTable a ha
    · exact hex_mem_hexTable b hb
    · exact hex_mem_hexTable c hc
    · exact hex_mem_hexTable d hd
    · exact hex_mem_hexTable e he

/-- Witness for C9 at the mixed key `"09aFb"`. -/
theorem c9_witness :
    ([48, 57, 97, 70, 98] : List Nat).length = 5 ∧
    (∀ x ∈ ([48, 57, 97, 70, 98] : List Nat), isHexByte x = true) ∧
    ((∀ b, isHexByte b = true → hex b ∈ hexTable) ∧
      (∀ b, 97 ≤ b → b ≤ 102 → hex b = hex (b - 32)) ∧
      (∃ p, Hash5.deserialize [48, 57, 97, 70, 98] = .ok p ∧
          BuildEffect.mkdir (p.take 4) ∈ generate_out_structure ∧
          ∀ s ∈ p, s ∈ hexTable)) :=
  ⟨by decide, by decide,
    c9_builder_server_layout_agree _ (by decide) (by decide)⟩

/-- `Hash5.deserialize` rejects any segment of the wrong length or with a
non-hex byte. -/
theorem deserialize_error (raw : List Nat)
    (h : raw.length ≠ 5 ∨ ∃ x ∈ raw, isHexByte x = false) :
    ∃ err, Hash5.deserialize raw = .error err := by
  rcases h with h | ⟨x, hx, hbad⟩
  · exact ⟨.invalidLength raw.length, by simp [Hash5.deserialize, h]⟩
  · by_cases h5 : raw.length = 5
    · have hsome : (raw.find? (fun b => !isHexByte b)).isSome := by
        rw [List.find?_isSome]
        exact ⟨x, hx, by simp [hbad]⟩
      obtain ⟨y, hy⟩ := Option.isSome_iff_exists.mp hsome
      exact ⟨.invalidValue y, by simp [Hash5.deserialize, h5, hy]⟩
    · exact ⟨.invalidLength raw.length, by simp [Hash5.deserialize, h5]⟩

/-- C4: for every request path segment whose byte length is not 5 or that
contains a byte outside the hex ranges, decoding fails, the server
answers with a client error, and no filesystem access happens (the access
trace of the handler is empty). -/
theorem c4_invalid_key_client_error_no_fs
    (st : AppState) (fs : List String → Option String)
    (rawSeg : List Nat) (headerValues : List (Option (List Char)))
    (h : rawSeg.length ≠ 5 ∨ ∃ x ∈ rawSeg, isHexByte x = false) :
    hash5_handler st fs rawSeg headerValues = (.badRequest, []) := by
  obtain ⟨err, herr⟩ := deserialize_error rawSeg h
  simp [hash5_handler, herr]

/-- Witness for C4 at the four-character segment `"ABCD"`. -/
theorem c4_witness :
    (([65, 66, 67, 68] : List Nat).length ≠ 5 ∨
      ∃ x ∈ ([65, 66, 67, 68] : List Nat), isHexByte x = false) ∧
    hash5_handler ⟨true, true, true⟩ (fun _ => none) [65, 66, 67, 68] [] =
      (.badRequest, []) :=
  ⟨Or.inl (by decide),
    c4_invalid_key_client_error_no_fs _ _ _ _ (Or.inl (by decide))⟩

/-- C2: the lookup handler selects the representation by fixed precedence
over the server capability flags and the parsed client acceptance flags —
brotli when both sides allow it, else gzip when both sides allow it, else
the plain json form when the server has it, else nothing is available and
(no artifact existing at the extensionless fallback path) the response is
not-found.  The acceptance flags carry no quality weights, so none can
influence the decision. -/
theorem c2_negotiation_fixed_precedence
    (st : AppState) (fs : List String → Option String)
    (rawSeg : List Nat) (hdrs : List (Option (List Char)))
    (inner : List String) (accepted : AcceptedEncodings)
    (hdec : Hash5.deserialize rawSeg = .ok inner)
    (hacc : get_accepted_encodings hdrs = .ok accepted)
    (hbare : fs inner = none) :
    (st.brotli = true → accepted.brotli = true →
      hash5_handler st fs rawSeg hdrs =
        lookupAt fs (set_extension inner "json.br") (some "br")) ∧
    ((st.brotli && accepted.brotli) = false →
      st.gzip = true → accepted.gzip = true →
      hash5_handler st fs rawSeg hdrs =
        lookupAt fs (set_extension inner "json.gz") (some "gzip")) ∧
    ((st.brotli && accepted.brotli) = false →
      (st.gzip && accepted.gzip) = false → st.json = true →
      hash5_handler st fs rawSeg hdrs =
        lookupAt fs (set_extension inner "json") none) ∧
    ((st.brotli && accepted.brotli) = false →
      (st.gzip && accepted.gzip) = false → st.json = false →
      hash5_handler st fs rawSeg hdrs = (.notFound, [inner])) := by
  have hh : hash5_handler st fs rawSeg hdrs =
      if st.brotli && accepted.brotli then
        lookupAt fs (set_extension inner "json.br") (some "br")
      else if st.gzip && accepted.gzip then
        lookupAt fs (set_extension inner "json.gz") (some "gzip")
      else if st.json then lookupAt fs (set_extension inner "json") none
      else lookupAt fs inner none := by
    simp [hash5_handler, hdec, hacc]
  refine ⟨?_, ?_, ?_, ?_⟩
  · intro h1 h2
    rw [hh]
    simp [h1, h2]
  · intro h1 h2 h3
    rw [hh]
    simp [h1, h2, h3]
  · intro h1 h2 h3
    rw [hh]
    simp [h1, h2, h3]
  · intro h1 h2 h3
    rw [hh]
    simp [h1, h2, h3, lookupAt, hbare]

/-- Witness for C2: the spec's negotiation example — client accepts
`br, gzip`, server capable of gzip and json but not brotli — runs through
the handler and yields the gzip artifact with a `gzip` encoding header. -/
theorem c2_witness :
    hash5_handler ⟨true, false, true⟩
        (fun p => if p = ["A", "B", "C", "D", "E.json.gz"] then some "gz" else none)
        [65, 66, 67, 68, 69] [some ("br, gzip".data)] =
      (.ok (some "gzip") "gz", [["A", "B", "C", "D", "E.json.gz"]]) := by
  have h := c2_negotiation_fixed_precedence ⟨true, false, true⟩
      (fun p => if p = ["A", "B", "C", "D", "E.json.gz"] then some "gz" else none)
      [65, 66, 67, 68, 69] [some ("br, gzip".data)]
      ["A", "B", "C", "D", "E"] ⟨true, true⟩ (by rfl) (by rfl) (by rfl)
  have h2 := h.2.1 (by rfl) (by rfl) (by rfl)
  rw [h2]
  rfl

theorem splitOnSubFuel_ne_nil (sep : List Char) (fuel : Nat) (s : List Char) :
    splitOnSubFuel sep fuel s ≠ [] := by
  cases s with
  | nil => cases fuel <;> simp [splitOnSubFuel]
  | cons c rest =>
    cases fuel with
    | zero => simp [splitOnSubFuel]
    | succ n =>
      rw [splitOnSubFuel]
      split
      · simp
      · split <;> simp

theorem splitOnSub_ne_nil (sep s : List Char) : splitOnSub sep s ≠ [] :=
  splitOnSubFuel_ne_nil sep s.length s

theorem except_ok_bind {e a b : Type} (x : a) (f : a → Except e b) :
    ((Except.ok x : Except e a) >>= f) = f x := rfl

/-- One negotiation step never fails and just ORs in the two literal
tests on the piece before `";q="`. -/
theorem accept_step_ok (acc : AcceptedEncodings) (item : List Char) :
    accept_step acc item =
      .ok { brotli := acc.brotli ||
              ((splitOnSub ";q=".data item).headD [] = "br".data),
            gzip := acc.gzip ||
              ((splitOnSub ";q=".data item).headD [] = "gzip".data) } := by
  obtain ⟨g, gs, hg⟩ :=
    List.exists_cons_of_ne_nil (splitOnSub_ne_nil ";q=".data item)
  unfold accept_step
  rw [hg]
  simp only [List.head?_cons, List.headD_cons]
  by_cases hbr : g = "br".data
  · have hgz : ¬(g = "gzip".data) := by
      rw [hbr]
      decide
    simp [hbr, hgz]
  · by_cases hgz : g = "gzip".data
    · simp [hbr, hgz]
    · simp [hbr, hgz]

/-- The accumulator characterisation of the negotiation fold: it never
fails, and each flag ends up set exactly when some item's leading piece
before `";q="` is the corresponding literal. -/
theorem fold_accept_char (items : List (List Char)) (acc : AcceptedEncodings) :
    items.foldlM accept_step acc =
      .ok { brotli := acc.brotli ||
              items.any (fun item => (splitOnSub ";q=".data item).headD [] = "br".data),
            gzip := acc.gzip ||
              items.any (fun item => (splitOnSub ";q=".data item).headD [] = "gzip".data) } := by
  induction items generalizing acc with
  | nil =>
    show (Except.ok acc : Except HeaderError AcceptedEncodings) = _
    simp
  | cons item rest ih =>
    rw [List.foldlM_cons, accept_step_ok, except_ok_bind, ih]
    simp [Bool.or_assoc]

theorem mapM_loop_id_map_some (texts : List (List Char))
    (acc : List (List Char)) :
    List.mapM.loop id (texts.map some) acc = some (acc.reverse ++ texts) := by
  induction texts generalizing acc with
  | nil => simp [List.mapM.loop]
  | cons t ts ih => simp [List.mapM.loop, ih]

theorem mapM_id_map_some (texts : List (List Char)) :
    (texts.map some).mapM id = some texts := by
  have h := mapM_loop_id_map_some texts []
  simpa [List.mapM] using h

/-- C6: for every list of `Accept-Encoding` header values interpretable
as text, the parser splits each value on commas, trims each token, strips
the trailing quality annotation (from the first `";q="` on), matches the
remaining literal against `"br"`/`"gzip"`, and silently ignores every
unrecognised token: the result is always `ok`, with each acceptance flag
set exactly when the claim-side token pipeline contains its literal. -/
theorem c6_accept_encoding_parsing (texts : List (List Char)) :
    get_accepted_encodings (texts.map some) =
      .ok { brotli := (claimTokens texts).any (fun t => t = "br".data),
            gzip := (claimTokens texts).any (fun t => t = "gzip".data) } := by
  unfold get_accepted_encodings
  rw [mapM_id_map_some]
  show (texts.flatMap (fun s => (splitOnSub [','] s).map trimList)).foldlM
      accept_step {} = _
  rw [fold_accept_char]
  simp [claimTokens, List.any_map, Function.comp]
  exact ⟨rfl, rfl⟩

/-- C10: `get_accepted_encodings` never returns the `InvalidFormat`
error — splitting an item on `";q="` always yields at least one piece —
and on header values that are all interpretable as text it returns `ok`,
so the only failure case is a value that cannot be converted to a
string. -/
theorem c10_invalid_format_unreachable :
    (∀ values, get_accepted_encodings values ≠ .error .invalidFormat) ∧
    (∀ texts : List (List Char), ∃ flags,
      get_accepted_encodings (texts.map some) = .ok flags) := by
  constructor
  · intro values
    unfold get_accepted_encodings
    cases hm : values.mapM id with
    | none => simp
    | some texts =>
        show (texts.flatMap (fun s => (splitOnSub [','] s).map trimList)).foldlM
            accept_step {} ≠ Except.error HeaderError.invalidFormat
        rw [fold_accept_char]
        simp
  · intro texts
    unfold get_accepted_encodings
    rw [mapM_id_map_some]
    show ∃ flags,
      (texts.flatMap (fun s => (splitOnSub [','] s).map trimList)).foldlM
        accept_step {} = Except.ok flags
    rw [fold_accept_char]
    exact ⟨_, rfl⟩

/-- C3 counterexample: a strict build with a wrong candidate count (here
0 files instead of 16^5) does abort, but only after the 65,536
`create_dir_all` calls of `ensure_output_directories` — a filesystem side
effect that precedes the completeness check. -/
theorem c3_counterexample :
    (runBuild true true true true id id []).2 = .abortedStrict ∧
    BuildEffect.mkdir ["0", "0", "0", "0"] ∈ (runBuild true true true true id id []).1 := by
  constructor
  · rfl
  · show BuildEffect.mkdir ["0", "0", "0", "0"] ∈ generate_out_structure
    exact mkdir_mem_generate_out_structure _ _ _ _ (by decide) (by decide)
      (by decide) (by decide)

/-- C3 amended: when the build is strict and the discovered candidate
count differs from 16^5, it aborts before writing any shard artifact
file — but after creating the 65,536-directory output skeleton, so the
run is not free of filesystem side effects: the effect trace is exactly
the skeleton `mkdir`s and contains no `writeFile`. -/
theorem c3_amended_strict_abort (strict json gzip brotli : Bool)
    (gzipC brC : String → String) (files : List (String × List String))
    (hstrict : strict = true) (hcount : files.length ≠ 16 ^ 5) :
    runBuild strict json gzip brotli gzipC brC files =
      (generate_out_structure, .abortedStrict) ∧
    ∀ e ∈ generate_out_structure, ∃ p, e = .mkdir p := by
  constructor
  · have hbne : (files.length != 16 ^ 5) = true := by
      simp [bne_iff_ne]
      exact hcount
    simp [runBuild, hstrict, hbne]
    intro h
    exact absurd h hcount
  · intro e he
    simp only [generate_out_structure, List.mem_flatMap, List.mem_map] at he
    obtain ⟨c1, -, c2, -, c3, -, c4, -, rfl⟩ := he
    exact ⟨[c1, c2, c3, c4], rfl⟩

/-- Witness for C3 (amended) at a strict run over an empty input
directory. -/
theorem c3_amended_witness :
    (true = true) ∧ (([] : List (String × List String)).length ≠ 16 ^ 5) ∧
    (runBuild true true true true id id [] =
        (generate_out_structure, .abortedStrict) ∧
      ∀ e ∈ generate_out_structure, ∃ p, e = .mkdir p) :=
  ⟨rfl, by decide,
    c3_amended_strict_abort true true true true id id [] rfl (by decide)⟩

theorem mapM_loop_eq_none {a b : Type} (f : a → Option b) (l : List a)
    (acc : List b) (h : ∃ x ∈ l, f x = none) :
    List.mapM.loop f l acc = none := by
  induction l generalizing acc with
  | nil => simp at h
  | cons x xs ih =>
    rcases h with ⟨y, hy, hfy⟩
    simp only [List.mem_cons] at hy
    rcases hy with rfl | hy
    · simp [List.mapM.loop, hfy]
    · cases hfx : f x with
      | none => simp [List.mapM.loop, hfx]
      | some v => simp [List.mapM.loop, hfx, ih _ ⟨y, hy, hfy⟩]

theorem mapM_eq_none {a b : Type} (f : a → Option b) (l : List a)
    (h : ∃ x ∈ l, f x = none) : l.mapM f = none :=
  mapM_loop_eq_none f l [] h

/-- C8: during the build, an input line that lacks the `:` separator —
or whose count part does not parse as a non-negative integer — panics
the worker and aborts processing of the entire batch: the run never
completes, whatever the other shards contain. -/
theorem c8_malformed_line_aborts_batch
    (strict json gzip brotli : Bool) (gzipC brC : String → String)
    (files : List (String × List String))
    (f : String × List String) (hf : f ∈ files) (line : String)
    (hline : line ∈ f.2)
    (hbad : split_once ':' line.data = none ∨
      ∃ pr, split_once ':' line.data = some pr ∧ parseUsize pr.2 = none) :
    (runBuild strict json gzip brotli gzipC brC files).2 ≠ .completed := by
  have hpl : parseLine f.1 line = none := by
    rcases hbad with h | ⟨pr, h1, h2⟩
    · simp [parseLine, h]
    · simp [parseLine, h1, h2]
  have hshard : buildShard json gzip brotli gzipC brC f.1 f.2 = none := by
    have hlines : parseShardLines f.1 f.2 = none :=
      mapM_eq_none _ _ ⟨line, hline, hpl⟩
    simp [buildShard, hlines]
  have hfiles :
      files.mapM (fun g => buildShard json gzip brotli gzipC brC g.1 g.2) = none :=
    mapM_eq_none _ _ ⟨f, hf, hshard⟩
  unfold runBuild
  split
  · simp
  · rw [hfiles]
    simp

/-- Witness for C8: one file whose single line has no `:` separator makes
the whole (non-strict) run abort. -/
theorem c8_witness :
    (("ABCDE", ["deadbeef"]) ∈ [(("ABCDE" : String), ["deadbeef"])]) ∧
    (("deadbeef" : String) ∈ [("deadbeef" : String)]) ∧
    (split_once ':' "deadbeef".data = none ∨
      ∃ pr, split_once ':' "deadbeef".data = some pr ∧ parseUsize pr.2 = none) ∧
    (runBuild false true true true id id [("ABCDE", ["deadbeef"])]).2 ≠ .completed :=
  ⟨by decide, by decide, Or.inl (by decide),
    c8_malformed_line_aborts_batch false true true true id id
      [("ABCDE", ["deadbeef"])] ("ABCDE", ["deadbeef"]) (by decide)
      "deadbeef" (by decide) (Or.inl (by decide))⟩

theorem split_once_append (s t : List Char) (hs : ':' ∉ s) :
    split_once ':' (s ++ ':' :: t) = some (s, t) := by
  induction s with
  | nil => simp [split_once]
  | cons c cs ih =>
    simp only [List.mem_cons, not_or] at hs
    have hc : ¬(c = ':') := fun h => hs.1 h.symm
    simp [split_once, hc, ih hs.2]

theorem parseLine_append (stem su cnt : String)
    (hs : ':' ∉ su.data) (hn : (parseUsize cnt.data).isSome = true) :
    parseLine stem (su ++ ":" ++ cnt) =
      some { hash := stem ++ su, count := (parseUsize cnt.data).getD 0 } := by
  obtain ⟨n, hn2⟩ := Option.isSome_iff_exists.mp hn
  have hdata : (su ++ ":" ++ cnt).data = su.data ++ ':' :: cnt.data := by
    rw [String.data_append, String.data_append, List.append_assoc]
    rfl
  unfold parseLine
  rw [hdata, split_once_append su.data cnt.data hs]
  simp [hn2]

theorem mapM_loop_comp {a b c : Type} (f : b → Option c) (build : a → b)
    (g : a → c) (l : List a) (h : ∀ x ∈ l, f (build x) = some (g x))
    (acc : List c) :
    List.mapM.loop f (l.map build) acc = some (acc.reverse ++ l.map g) := by
  induction l generalizing acc with
  | nil => simp [List.mapM.loop]
  | cons x xs ih =>
    simp [List.mapM.loop, h x (by simp), ih (fun y hy => h y (by simp [hy]))]

/-- Parsing the lines rebuilt from `(suffix, count-text)` pairs succeeds
and yields exactly one record per line, in line order, the hash being the
stem concatenated with the suffix. -/
theorem parseShardLines_pairs (stem : String) (pairs : List (String × String))
    (hnc : ∀ pr ∈ pairs, ':' ∉ pr.1.data)
    (hcnt : ∀ pr ∈ pairs, (parseUsize pr.2.data).isSome = true) :
    parseShardLines stem (pairs.map (fun pr => pr.1 ++ ":" ++ pr.2)) =
      some (pairs.map (fun pr =>
        { hash := stem ++ pr.1, count := (parseUsize pr.2.data).getD 0 })) := by
  have h : ∀ pr ∈ pairs, parseLine stem (pr.1 ++ ":" ++ pr.2) =
      some { hash := stem ++ pr.1, count := (parseUsize pr.2.data).getD 0 } :=
    fun pr hpr => parseLine_append stem pr.1 pr.2 (hnc pr hpr) (hcnt pr hpr)
  have hl := mapM_loop_comp (parseLine stem) (fun pr => pr.1 ++ ":" ++ pr.2)
      (fun pr => { hash := stem ++ pr.1, count := (parseUsize pr.2.data).getD 0 })
      pairs h []
  simpa [parseShardLines, List.mapM] using hl

/-- With all three representations enabled, the worker writes exactly the
three artifacts, each derived from the one serialized sequence. -/
theorem buildShard_all (gzipC brC : String → String) (stem : String)
    (lines : List String) (ps : List Password)
    (h : parseShardLines stem lines = some ps) :
    buildShard true true true gzipC brC stem lines =
      some [ .writeFile (format_prefix_to_dirs stem ++ ".json")
               (serializeShard ps),
             .writeFile (format_prefix_to_dirs stem ++ ".json.gz")
               (gzipC (serializeShard ps)),
             .writeFile (format_prefix_to_dirs stem ++ ".json.br")
               (brC (serializeShard ps))] := by
  simp [buildShard, h]

/-- C5: for a shard built from `(suffix, count)` input lines, the enabled
artifacts all derive from the single serialized sequence of the record
list — records in input line order, no sorting or deduplication, each
hash the shard key concatenated with the line's suffix — and any
round-tripping decompressors recover that one sequence from the gzip and
brotli artifacts; on the spec's example the canonical bytes are exactly
the expected JSON array. -/
theorem c5_artifacts_one_canonical_sequence
    (stem : String) (pairs : List (String × String))
    (gzipC brC gunzip unbr : String → String)
    (hgz : ∀ s, gunzip (gzipC s) = s) (hbr : ∀ s, unbr (brC s) = s)
    (hnc : ∀ pr ∈ pairs, ':' ∉ pr.1.data)
    (hcnt : ∀ pr ∈ pairs, (parseUsize pr.2.data).isSome = true) :
    (∃ ps, parseShardLines stem
        (pairs.map (fun pr => pr.1 ++ ":" ++ pr.2)) = some ps ∧
      ps = pairs.map (fun pr =>
        { hash := stem ++ pr.1, count := (parseUsize pr.2.data).getD 0 }) ∧
      buildShard true true true gzipC brC stem
          (pairs.map (fun pr => pr.1 ++ ":" ++ pr.2)) =
        some [ .writeFile (format_prefix_to_dirs stem ++ ".json")
                 (serializeShard ps),
               .writeFile (format_prefix_to_dirs stem ++ ".json.gz")
                 (gzipC (serializeShard ps)),
               .writeFile (format_prefix_to_dirs stem ++ ".json.br")
                 (brC (serializeShard ps))] ∧
      gunzip (gzipC (serializeShard ps)) = serializeShard ps ∧
      unbr (brC (serializeShard ps)) = serializeShard ps) ∧
    serializeShard
        [{ hash := "ABCDE00000000000000000000000000000000000", count := 3 },
         { hash := "ABCDEFFFFFFFFFFFFFFFFFFFFFFFFFFFFFFFFFFF", count := 1 }] =
      "[\x7b\"hash\":\"ABCDE00000000000000000000000000000000000\",\"count\":3\x7d,\x7b\"hash\":\"ABCDEFFFFFFFFFFFFFFFFFFFFFFFFFFFFFFFFFFF\",\"count\":1\x7d]" := by
  refine ⟨⟨_, parseShardLines_pairs stem pairs hnc hcnt, rfl,
    buildShard_all gzipC brC stem _ _ (parseShardLines_pairs stem pairs hnc hcnt),
    hgz _, hbr _⟩, ?_⟩
  rfl

/-- Witness for C5 at the spec's example shard `ABCDE`, with identity
compressors. -/
theorem c5_witness :
    (∀ pr ∈ [(("00000000000000000000000000000000000" : String), ("3" : String)), ("FFFFFFFFFFFFFFFFFFFFFFFFFFFFFFFFFFF", "1")],
      ':' ∉ pr.1.data) ∧
    (∀ pr ∈ [(("00000000000000000000000000000000000" : String), ("3" : String)), ("FFFFFFFFFFFFFFFFFFFFFFFFFFFFFFFFFFF", "1")],
      (parseUsize pr.2.data).isSome = true) ∧
    ((∃ ps, parseShardLines "ABCDE"
        ([(("00000000000000000000000000000000000" : String), ("3" : String)), ("FFFFFFFFFFFFFFFFFFFFFFFFFFFFFFFFFFF", "1")].map
          (fun pr => pr.1 ++ ":" ++ pr.2)) = some ps ∧
      ps = [(("00000000000000000000000000000000000" : String), ("3" : String)), ("FFFFFFFFFFFFFFFFFFFFFFFFFFFFFFFFFFF", "1")].map
        (fun pr => { hash := "ABCDE" ++ pr.1,
                     count := (parseUsize pr.2.data).getD 0 }) ∧
      buildShard true true true id id "ABCDE"
          ([(("00000000000000000000000000000000000" : String), ("3" : String)), ("FFFFFFFFFFFFFFFFFFFFFFFFFFFFFFFFFFF", "1")].map
            (fun pr => pr.1 ++ ":" ++ pr.2)) =
        some [ .writeFile (format_prefix_to_dirs "ABCDE" ++ ".json")
                 (serializeShard ps),
               .writeFile (format_prefix_to_dirs "ABCDE" ++ ".json.gz")
                 (serializeShard ps),
               .writeFile (format_prefix_to_dirs "ABCDE" ++ ".json.br")
                 (serializeShard ps)] ∧
      serializeShard ps = serializeShard ps ∧
      serializeShard ps = serializeShard ps) ∧
    serializeShard
        [{ hash := "ABCDE00000000000000000000000000000000000", count := 3 },
         { hash := "ABCDEFFFFFFFFFFFFFFFFFFFFFFFFFFFFFFFFFFF", count := 1 }] =
      "[\x7b\"hash\":\"ABCDE00000000000000000000000000000000000\",\"count\":3\x7d,\x7b\"hash\":\"ABCDEFFFFFFFFFFFFFFFFFFFFFFFFFFFFFFFFFFF\",\"count\":1\x7d]") :=
  ⟨by decide, by decide,
    c5_artifacts_one_canonical_sequence "ABCDE"
      [(("00000000000000000000000000000000000" : String), ("3" : String)), ("FFFFFFFFFFFFFFFFFFFFFFFFFFFFFFFFFFF", "1")]
      id id id id (fun _ => rfl) (fun _ => rfl) (by decide) (by decide)⟩

/-- C7 counterexample: the build worker accepts the invalid filename stem
`"abc"` (length 3) without any per-item failure, and filename-derived
keys are not canonicalised: `"abcde"` yields the lower-case path
`"a/b/c/d/e"`, not the canonical `"A/B/C/D/E"`. -/
theorem c7_counterexample :
    buildShard true false false id id "abc" [] =
      some [BuildEffect.writeFile "a/b/c.json" "[]"] ∧
    format_prefix_to_dirs "abcde" = "a/b/c/d/e" ∧
    format_prefix_to_dirs "abcde" ≠ "A/B/C/D/E" :=
  ⟨rfl, rfl, by decide⟩

theorem foldl_sep_enumFrom (l : List Char) (n : Nat) (acc : List Char) :
    ((l.enumFrom (n + 1)).foldl
        (fun acc ic => (if 0 < ic.1 then acc ++ ['/'] else acc) ++ [ic.2]) acc) =
      acc ++ l.flatMap (fun c => ['/', c]) := by
  induction l generalizing n acc with
  | nil => simp
  | cons c cs ih =>
    rw [List.enumFrom_cons, List.foldl_cons]
    rw [if_pos (Nat.succ_pos n)]
    rw [ih (n + 1)]
    simp

theorem cons_flatMap_sep (c : Char) (cs : List Char) :
    c :: cs.flatMap (fun x => ['/', x]) = List.intersperse '/' (c :: cs) := by
  induction cs generalizing c with
  | nil => rfl
  | cons d ds ih =>
    rw [List.intersperse_cons_cons, ← ih d]
    rfl

/-- The builder's path fold keeps the stem's characters verbatim and only
interleaves `/` separators: no case folding, no validation. -/
theorem format_prefix_to_dirs_data (stem : String) :
    (format_prefix_to_dirs stem).data = List.intersperse '/' stem.data := by
  unfold format_prefix_to_dirs
  show (stem.data.enum.foldl
      (fun acc ic => (if 0 < ic.1 then acc ++ ['/'] else acc) ++ [ic.2]) []) = _
  cases hd : stem.data with
  | nil => rfl
  | cons c cs =>
    rw [List.enum_cons, List.foldl_cons]
    rw [if_neg (by omega)]
    rw [show (0, c).2 = c from rfl]
    rw [foldl_sep_enumFrom cs 0 ([] ++ [c])]
    simp [cons_flatMap_sep]

/-- C7 amended: the builder applies no RangeKey validation and no case
canonicalisation to filename-derived keys: for any stem whose lines
parse, the worker succeeds (there is no per-item failure path for a bad
name), and its artifact paths are built from the stem's characters
verbatim, interleaved with `/`. -/
theorem c7_amended_stem_used_verbatim (stem : String) (lines : List String)
    (ps : List Password) (gzipC brC : String → String)
    (h : parseShardLines stem lines = some ps) :
    (format_prefix_to_dirs stem).data = List.intersperse '/' stem.data ∧
    buildShard true true true gzipC brC stem lines =
      some [ .writeFile (format_prefix_to_dirs stem ++ ".json")
               (serializeShard ps),
             .writeFile (format_prefix_to_dirs stem ++ ".json.gz")
               (gzipC (serializeShard ps)),
             .writeFile (format_prefix_to_dirs stem ++ ".json.br")
               (brC (serializeShard ps))] :=
  ⟨format_prefix_to_dirs_data stem, buildShard_all gzipC brC stem lines ps h⟩

/-- Witness for C7 (amended) at the lower-case stem `"abcde"`. -/
theorem c7_amended_witness :
    parseShardLines "abcde" ["0:1"] = some [{ hash := "abcde0", count := 1 }] ∧
    ((format_prefix_to_dirs "abcde").data = List.intersperse '/' "abcde".data ∧
      buildShard true true true id id "abcde" ["0:1"] =
        some [ .writeFile (format_prefix_to_dirs "abcde" ++ ".json")
                 (serializeShard [{ hash := "abcde0", count := 1 }]),
               .writeFile (format_prefix_to_dirs "abcde" ++ ".json.gz")
                 (serializeShard [{ hash := "abcde0", count := 1 }]),
               .writeFile (format_prefix_to_dirs "abcde" ++ ".json.br")
                 (serializeShard [{ hash := "abcde0", count := 1 }])]) :=
  ⟨rfl, c7_amended_stem_used_verbatim "abcde" ["0:1"] _ id id rfl⟩

end HibpJson
